import Mathlib

/-!
Verification of the Osmosis swap-routing and pricing module
(`src/packages/wallet-sdk/src/swap-modules/osmosis.ts`).

The module's pure computational core is embedded shallowly:

* The pool feed (`poolsCacheEntries`) is a list of entries
  `(poolId, [assetA, assetB])`; pool ids are kept as the feed's strings
  (the source parses them with `Long.fromString` only when building the
  final message, which does not change their identity).
* `BigNumber` values are embedded as rationals (`ℚ`).  bignumber.js with
  its default configuration performs exact decimal arithmetic for
  addition, subtraction and multiplication, and rounds the results of
  `div` to `DECIMAL_PLACES = 20` decimal places using
  `ROUNDING_MODE = 4` (`ROUND_HALF_UP`, ties away from zero).
  `decimalPlaces(0)` rounds to an integer with the same default mode.
* JavaScript `number`s are binary64 floats.  `BigNumber#toNumber`
  rounds the decimal value to the nearest binary64 value
  (`jsToNumber` below, modelled exactly in ℚ for the normal range;
  overflow and subnormal underflow do not occur at the magnitudes the
  claims are about).  Feeding a `number` back into bignumber.js
  arithmetic converts it through its shortest round-tripping decimal
  representation (ECMAScript `Number::toString`), modelled by
  `jsNumToDecimal`: the decimal with the fewest significant digits
  (at most 17) that parses back to the same binary64 value.
* Feed prices and request amounts are modelled as the exact decimal
  values held by the `BigNumber` instances the code constructs from
  them.
* Fallible operations return `Except String`; a thrown JS `Error e`
  is modelled by `.error` of its message, and the module's rethrow
  `throw new Error(err)` (which stringifies the caught `Error` object)
  by the message "Error: no-match".
* Network fetches, signing and broadcasting (`fetch`, `BaseSwapTx`,
  `signAndBroadcastTx`) are out of scope; `swapTokens` is modelled up
  to the fully-assembled swap message, which contains every value the
  claims mention.
-/

namespace OsmosisSwap

/-- One side of a two-asset liquidity pool, as delivered by the pools
feed (source type `PoolAsset`). -/
structure PoolAsset where
  symbol : String
  denom : String
  fees : String
  liquidity : ℚ
  price : ℚ
deriving DecidableEq, Repr

/-- One entry of `poolsCacheEntries`: the pool id (the feed's object key)
together with the pool's two assets. -/
abbrev PoolEntry := String × PoolAsset × PoolAsset

/-- One hop of a swap route (source type `SwapRoute[number]`); the pool id
is kept as the feed string that `Long.fromString` receives. -/
structure Hop where
  poolId : String
  tokenOutDenom : String
deriving DecidableEq, Repr

/-- A swap route: an ordered list of hops. -/
abbrev SwapRoute := List Hop

/-- An entry of `coinsCache`, derived from the asset-list feed. -/
structure SwapToken where
  symbol : String
  denom : String
  image : String
deriving DecidableEq, Repr

/-- The fields of a `NativeDenom` registry entry that the swap module
reads. -/
structure NativeDenom where
  coinDecimals : ℕ
  coinMinimalDenom : String
deriving DecidableEq, Repr

/-- JavaScript `String.prototype.toLowerCase` on the ASCII symbols the
module compares (`Char.toLower` lower-cases exactly `A`–`Z`). -/
def lc (s : String) : String := ⟨s.data.map Char.toLower⟩

/-- The predicate `getPoolPricesPairs` passes to
`poolsCacheEntries.find`: the entry's two asset symbols match the queried
pair in either orientation, case-insensitively. -/
def poolMatches (fromTokenSymbol targetTokenSymbol : String) (e : PoolEntry) : Bool :=
  (lc e.2.1.symbol = lc fromTokenSymbol ∧ lc e.2.2.symbol = lc targetTokenSymbol) ∨
    (lc e.2.1.symbol = lc targetTokenSymbol ∧ lc e.2.2.symbol = lc fromTokenSymbol)

/-- The `find` step of `getPoolPricesPairs`: the first feed entry whose
asset pair matches the queried pair in either orientation. -/
def findPool (ps : List PoolEntry) (fromTokenSymbol targetTokenSymbol : String) :
    Option PoolEntry :=
  ps.find? (poolMatches fromTokenSymbol targetTokenSymbol)

/-- Source method `getPoolPricesPairs`: returns the first matching pool
entry or throws the error `no-match`. -/
def getPoolPricesPairs (ps : List PoolEntry) (fromTokenSymbol targetTokenSymbol : String) :
    Except String PoolEntry :=
  match findPool ps fromTokenSymbol targetTokenSymbol with
  | some e => .ok e
  | none => .error ("no-match")

/-- bignumber.js `ROUND_HALF_UP` (mode 4, the default `ROUNDING_MODE`)
applied at 0 decimal places: round to the nearest integer, ties away
from zero.  This is what `decimalPlaces(0)` performs. -/
def roundHalfAway (q : ℚ) : ℤ :=
  if 0 ≤ q then ⌊q + 1 / 2⌋ else -⌊-q + 1 / 2⌋

/-- bignumber.js rounding of a value to `dp` decimal places with the
default `ROUND_HALF_UP` mode. -/
def bnDp (dp : ℕ) (q : ℚ) : ℚ :=
  (roundHalfAway (q * 10 ^ dp) : ℚ) / 10 ^ dp

/-- bignumber.js `div` with the default configuration: the exact quotient
rounded to `DECIMAL_PLACES = 20` decimal places, `ROUND_HALF_UP`. -/
def bnDiv (a b : ℚ) : ℚ := bnDp 20 (a / b)

/-- Round to the nearest integer, ties to even (the rounding of IEEE-754
binary64 arithmetic and of ECMAScript `Number::toString`). -/
def rne (q : ℚ) : ℤ :=
  if q - (⌊q⌋ : ℚ) < 1 / 2 then ⌊q⌋
  else if 1 / 2 < q - (⌊q⌋ : ℚ) then ⌊q⌋ + 1
  else if ⌊q⌋ % 2 = 0 then ⌊q⌋ else ⌊q⌋ + 1

/-- `BigNumber#toNumber`: the exact decimal value rounded to the nearest
IEEE-754 binary64 value (52 fraction bits, round to nearest, ties to
even).  The model covers the normal, non-overflowing range, which
contains every value the development evaluates it at. -/
def jsToNumber (q : ℚ) : ℚ :=
  if q = 0 then 0
  else
    (if q < 0 then -1 else 1) * (rne (|q| * 2 ^ (52 - Int.log 2 |q|)) : ℚ) *
      2 ^ (Int.log 2 |q| - 52)

/-- JavaScript `/` on doubles: correctly rounded binary64 division (the
arguments are assumed binary64-representable, as they are at every use
in this development). -/
def jsDiv (a b : ℚ) : ℚ := jsToNumber (a / b)

/-- JavaScript `-` on doubles: correctly rounded binary64 subtraction. -/
def jsSub (a b : ℚ) : ℚ := jsToNumber (a - b)

/-- The decimal obtained by rounding `d` to `k` significant digits, ties
to even (one candidate step of ECMAScript `Number::toString`). -/
def decRound (d : ℚ) (k : ℕ) : ℚ :=
  ((rne (d * 10 ^ ((k : ℤ) - 1 - Int.log 10 |d|)) : ℤ) : ℚ) *
    10 ^ (Int.log 10 |d| - ((k : ℤ) - 1))

/-- Search loop of `jsNumToDecimal`: try `k, k+1, …` significant digits
until the candidate decimal parses back to `d`; a binary64 value always
round-trips at 17 digits, which the fuel (started at 17 with `k = 1`)
makes the fallback. -/
def jsNumToDecimalAux (d : ℚ) : ℕ → ℕ → ℚ
  | _, 0 => decRound d 17
  | k, fuel + 1 =>
    if jsToNumber (decRound d k) = d then decRound d k else jsNumToDecimalAux d (k + 1) fuel

/-- ECMAScript `Number::toString` followed by exact decimal parsing: the
decimal with the fewest significant digits (at most 17) whose nearest
binary64 value is `d`.  This is the value bignumber.js stores when a JS
`number` is passed to it. -/
def jsNumToDecimal (d : ℚ) : ℚ :=
  if d = 0 then 0 else jsNumToDecimalAux d 1 17

/-- The composite conversion a `BigNumber` value undergoes when the code
lowers it to a JS `number` and feeds it back into bignumber.js:
`toNumber` (binary64 rounding) followed by the number→BigNumber decimal
conversion. -/
def jsNumberRoundtrip (q : ℚ) : ℚ := jsNumToDecimal (jsToNumber q)

/-- One step of the constructor's `reduce` over the feed entries: the
spread `{...acc, [assetA.symbol]: priceA, [assetB.symbol]: priceB}`, in
which `assetB` overwrites `assetA` on a shared key and both overwrite
the accumulator.  Symbol keys are exact (JS object keys). -/
def priceStep (acc : String → Option ℚ) (e : PoolEntry) : String → Option ℚ :=
  fun s =>
    if s = e.2.2.symbol then some e.2.2.price
    else if s = e.2.1.symbol then some e.2.1.price
    else acc s

/-- The token-price table derived in the constructor as a side effect of
the pool fetch; an asset appearing in several pools takes the price seen
last. -/
def tokenPriceCache (ps : List PoolEntry) : String → Option ℚ :=
  ps.foldl priceStep (fun _ => none)

/-- Source method `getTokenUsdPrice`: a plain table lookup; a symbol
absent from every pool yields `undefined` (`none`), not an error and not
zero. -/
def getTokenUsdPrice (ps : List PoolEntry) (tokenSymbol : String) : Option ℚ :=
  tokenPriceCache ps tokenSymbol

/-- The direct branch (step 1) of `getTokenToTokenPrice`: find the pool,
orient which side is `from`, and return
`fromPrice.div(toPrice).multipliedBy(tokenAmount)` — the quotient being
bignumber.js division, i.e. rounded to 20 decimal places. -/
def directQuote (ps : List PoolEntry) (tokenASymbol tokenBSymbol : String) (tokenAmount : ℚ) :
    Option ℚ :=
  (findPool ps tokenASymbol tokenBSymbol).map fun e =>
    let fromToken := if lc tokenASymbol = lc e.2.1.symbol then e.2.1 else e.2.2
    let targetToken := if lc tokenASymbol = lc e.2.1.symbol then e.2.2 else e.2.1
    bnDiv fromToken.price targetToken.price * tokenAmount

/-- Source method `getTokenToTokenPrice`.  The source is recursive: on a
direct-lookup failure with both symbols different from `OSMO` it quotes
`tokenA → OSMO` and then `OSMO → tokenB`, lowering the first result to a
JS `number` (`valueA.toNumber()`) that bignumber.js re-reads as a
decimal — the `jsNumberRoundtrip` below.  Each inner call has one side
fixed to the exact string `OSMO`, so its own fallback guard fails and it
behaves as the direct branch alone; the recursion (depth ≤ 2) is
unrolled here accordingly.  Every failure surfaces as the module's
rethrow `new Error(err)` of the `no-match` error, stringified as
"Error: no-match". -/
def getTokenToTokenPrice (ps : List PoolEntry) (tokenASymbol tokenBSymbol : String)
    (tokenAmount : ℚ) : Except String ℚ :=
  match directQuote ps tokenASymbol tokenBSymbol tokenAmount with
  | some v => .ok v
  | none =>
    if tokenASymbol ≠ "OSMO" ∧ tokenBSymbol ≠ "OSMO" then
      match directQuote ps tokenASymbol ("OSMO") tokenAmount with
      | none => .error ("Error: no-match")
      | some valueA =>
        match directQuote ps ("OSMO") tokenBSymbol (jsNumberRoundtrip valueA) with
        | none => .error ("Error: no-match")
        | some valueB => .ok valueB
    else .error ("Error: no-match")

/-- Source method `getSwapRoute`: a direct pool gives a one-hop route;
otherwise the catch block resolves `from → OSMO` and `OSMO → target`
pools (the first failing lookup's `no-match` error propagating) and
builds a two-hop route. -/
def getSwapRoute (ps : List PoolEntry) (fromTokenSymbol targetTokenSymbol : String) :
    Except String SwapRoute :=
  match findPool ps fromTokenSymbol targetTokenSymbol with
  | some e =>
    let targetToken := if lc fromTokenSymbol = lc e.2.1.symbol then e.2.2 else e.2.1
    .ok [⟨e.1, targetToken.denom⟩]
  | none =>
    match findPool ps fromTokenSymbol ("OSMO") with
    | none => .error ("no-match")
    | some eA =>
      match findPool ps ("OSMO") targetTokenSymbol with
      | none => .error ("no-match")
      | some eB =>
        let xToken := if lc fromTokenSymbol = lc eA.2.1.symbol then eA.2.2 else eA.2.1
        let targetToken := if ("osmo") = lc eB.2.1.symbol then eB.2.2 else eB.2.1
        .ok [⟨eA.1, xToken.denom⟩, ⟨eB.1, targetToken.denom⟩]

/-- The error message `swapTokens` throws for a symbol missing from the
asset table or the denom registry. -/
def unsupportedPair (fromTokenSymbol targetTokenSymbol : String) : String :=
  "Swap pair is not supported: " ++ fromTokenSymbol ++ " -> " ++ targetTokenSymbol

/-- The assembled swap message of `swapTokens`: the fields of the
`swapExactAmountIn` message plus the reported target amount (the
broadcast step consumes exactly these values). -/
structure SwapMsg where
  tokenInAmount : ℤ
  tokenInDenom : String
  tokenOutAmount : ℚ
  tokenOutMinAmount : ℤ
  routes : SwapRoute
deriving DecidableEq, Repr

/-- Source method `swapTokens`, up to the fully-assembled message.
`fromTokenAmount` arrives as a decimal string (exact in `BigNumber`);
`10 ** coinDecimals` is exact in binary64 for the decimal counts in use
(≤ 22) and round-trips through its decimal representation, so the scale
factor is exact; `1 - slippage / 100` is binary64 arithmetic whose
result bignumber.js re-reads as a decimal; both `decimalPlaces(0)` calls
use the default `ROUND_HALF_UP`. -/
def swapTokens (ps : List PoolEntry) (coinsCache : List SwapToken)
    (nativeDenomsByTokenSymbol : String → Option NativeDenom)
    (fromTokenSymbol targetTokenSymbol : String)
    (fromTokenAmount targetTokenAmount slippage : ℚ) : Except String SwapMsg :=
  match coinsCache.find? (fun c => c.symbol == fromTokenSymbol) with
  | none => .error (unsupportedPair fromTokenSymbol targetTokenSymbol)
  | some tokenInCoin =>
    match nativeDenomsByTokenSymbol fromTokenSymbol with
    | none => .error (unsupportedPair fromTokenSymbol targetTokenSymbol)
    | some tokenInNativeDenom =>
      let tokenInAmountInMinimalDenom : ℤ :=
        roundHalfAway (fromTokenAmount * 10 ^ tokenInNativeDenom.coinDecimals)
      match coinsCache.find? (fun c => c.symbol == targetTokenSymbol) with
      | none => .error (unsupportedPair fromTokenSymbol targetTokenSymbol)
      | some _ =>
        match nativeDenomsByTokenSymbol targetTokenSymbol with
        | none => .error (unsupportedPair fromTokenSymbol targetTokenSymbol)
        | some tokenOutNativeDenom =>
          let tokenOutAmountInMinimalDenom : ℚ :=
            targetTokenAmount * 10 ^ tokenOutNativeDenom.coinDecimals
          let tokenOutMinAmount : ℤ :=
            roundHalfAway
              (tokenOutAmountInMinimalDenom * jsNumToDecimal (jsSub 1 (jsDiv slippage 100)))
          match getSwapRoute ps fromTokenSymbol targetTokenSymbol with
          | .error e => .error e
          | .ok swapRoute =>
            .ok
              ⟨tokenInAmountInMinimalDenom, tokenInCoin.denom, tokenOutAmountInMinimalDenom,
                tokenOutMinAmount, swapRoute⟩

/-- Erase the informational `fees` field of both assets of a pool entry;
two feeds with the same image under this map differ only in fees. -/
def eraseFees (e : PoolEntry) : PoolEntry :=
  (e.1, { e.2.1 with fees := "" }, { e.2.2 with fees := "" })

/-- A pool entry mentions a symbol when the symbol is one of its two
asset symbols (exact comparison, as in the price-table derivation). -/
def poolMentions (e : PoolEntry) (s : String) : Prop :=
  e.2.1.symbol = s ∨ e.2.2.symbol = s

instance poolMentionsDecidable (e : PoolEntry) (s : String) : Decidable (poolMentions e s) :=
  inferInstanceAs (Decidable (e.2.1.symbol = s ∨ e.2.2.symbol = s))

/-- The price the constructor's `reduce` records for `s` from entry `e`:
`assetB`'s price when `s` is `assetB`'s symbol (the later spread key),
otherwise `assetA`'s. -/
def lastSeenPrice (e : PoolEntry) (s : String) : ℚ :=
  if s = e.2.2.symbol then e.2.2.price else e.2.1.price

section Helpers

theorem find_congr {α : Type} (p q : α → Bool) (h : ∀ a, p a = q a) (l : List α) :
    l.find? p = l.find? q := by
  have hpq : p = q := funext h
  rw [hpq]

theorem poolMatches_symm (a b : String) (e : PoolEntry) :
    poolMatches a b e = poolMatches b a e := by
  simp only [poolMatches, decide_eq_decide]
  tauto

theorem poolMatches_lc (a b a' b' : String) (e : PoolEntry) (ha : lc a = lc a')
    (hb : lc b = lc b') : poolMatches a b e = poolMatches a' b' e := by
  simp only [poolMatches, ha, hb]

theorem findPool_symm (ps : List PoolEntry) (a b : String) :
    findPool ps a b = findPool ps b a :=
  find_congr _ _ (poolMatches_symm a b) ps

theorem findPool_lc (ps : List PoolEntry) (a b a' b' : String) (ha : lc a = lc a')
    (hb : lc b = lc b') : findPool ps a b = findPool ps a' b' :=
  find_congr _ _ (fun e => poolMatches_lc a b a' b' e ha hb) ps

theorem findPool_matches {ps : List PoolEntry} {a b : String} {e : PoolEntry}
    (h : findPool ps a b = some e) : poolMatches a b e = true :=
  List.find?_some h

theorem findPool_eq_some_iff (ps : List PoolEntry) (a b : String) (e : PoolEntry) :
    findPool ps a b = some e ↔
      ∃ l₁ l₂, ps = l₁ ++ e :: l₂ ∧ poolMatches a b e = true ∧
        ∀ x ∈ l₁, poolMatches a b x = false := by
  constructor
  · intro h
    induction ps with
    | nil => simp [findPool] at h
    | cons hd tl ih =>
      by_cases hhd : poolMatches a b hd
      · rw [findPool, List.find?_cons_of_pos _ hhd] at h
        obtain rfl : hd = e := by injection h
        exact ⟨[], tl, rfl, hhd, by simp⟩
      · rw [findPool, List.find?_cons_of_neg _ (by simpa using hhd)] at h
        obtain ⟨l₁, l₂, hps, he, hl⟩ := ih h
        refine ⟨hd :: l₁, l₂, by rw [hps]; rfl, he, ?_⟩
        intro x hx
        rcases List.mem_cons.mp hx with rfl | hx
        · simpa using hhd
        · exact hl x hx
  · rintro ⟨l₁, l₂, rfl, he, hl⟩
    induction l₁ with
    | nil => exact (List.find?_cons_of_pos _ he : _)
    | cons hd tl ih =>
      rw [List.cons_append, findPool,
        List.find?_cons_of_neg _ (by simp [hl hd (by simp)])]
      exact ih fun x hx => hl x (List.mem_cons_of_mem _ hx)

theorem roundHalfAway_intCast (z : ℤ) : roundHalfAway (z : ℚ) = z := by
  unfold roundHalfAway
  split_ifs with h
  · rw [add_comm, Int.floor_add_int]
    norm_num
  · rw [show -(z : ℚ) + 1 / 2 = 1 / 2 + (-z : ℤ) by push_cast; ring, Int.floor_add_int]
    norm_num

theorem roundHalfAway_floor {q : ℚ} (h0 : 0 ≤ q) :
    (Int.fract q < 1 / 2 → roundHalfAway q = ⌊q⌋) ∧
      (1 / 2 ≤ Int.fract q → roundHalfAway q = ⌊q⌋ + 1) := by
  have hq : roundHalfAway q = ⌊q + 1 / 2⌋ := if_pos h0
  have hsplit : q + 1 / 2 = Int.fract q + 1 / 2 + (⌊q⌋ : ℚ) := by
    rw [Int.fract]
    ring
  constructor
  · intro hf
    have h1 : (0 : ℚ) ≤ Int.fract q + 1 / 2 := by linarith [Int.fract_nonneg q]
    have h2 : Int.fract q + 1 / 2 < 1 := by linarith
    rw [hq, hsplit, Int.floor_add_int, Int.floor_eq_zero_iff.mpr (Set.mem_Ico.mpr ⟨h1, h2⟩),
      zero_add]
  · intro hf
    have h1 : ⌊Int.fract q + 1 / 2⌋ = 1 := by
      rw [Int.floor_eq_iff]
      have := Int.fract_lt_one q
      push_cast
      constructor <;> linarith
    rw [hq, hsplit, Int.floor_add_int, h1, add_comm]

theorem rne_intCast (z : ℤ) : rne (z : ℚ) = z := by
  unfold rne
  simp [Int.floor_intCast]

theorem rne_cases (q : ℚ) : rne q = ⌊q⌋ ∨ rne q = ⌊q⌋ + 1 := by
  unfold rne
  split_ifs <;> simp

theorem abs_rne_le {q : ℚ} {n : ℤ} (h : |q| < (n : ℚ)) : |rne q| ≤ n := by
  have hfl : (⌊q⌋ : ℚ) ≤ q := Int.floor_le q
  have hfu : q < (⌊q⌋ : ℚ) + 1 := Int.lt_floor_add_one q
  have habs₁ : -(n : ℚ) < q := by
    have := abs_lt.mp h
    linarith [this.1]
  have habs₂ : q < (n : ℚ) := (abs_lt.mp h).2
  rcases rne_cases q with hr | hr
  · rw [hr, abs_le]
    constructor
    · have : -(n : ℚ) - 1 < (⌊q⌋ : ℚ) := by linarith
      have : (-n - 1 : ℤ) < ⌊q⌋ := by exact_mod_cast this
      omega
    · have : (⌊q⌋ : ℚ) < (n : ℚ) := by linarith
      have : ⌊q⌋ < n := by exact_mod_cast this
      omega
  · rw [hr, abs_le]
    constructor
    · have : -(n : ℚ) - 1 < (⌊q⌋ : ℚ) := by linarith
      have : (-n - 1 : ℤ) < ⌊q⌋ := by exact_mod_cast this
      omega
    · have : (⌊q⌋ : ℚ) < (n : ℚ) := by linarith
      have : ⌊q⌋ < n := by exact_mod_cast this
      omega

theorem log_eq_of_bounds {b : ℕ} (hb : 1 < b) {r : ℚ} (hr : 0 < r) {z : ℤ}
    (h1 : (b : ℚ) ^ z ≤ r) (h2 : r < (b : ℚ) ^ (z + 1)) : Int.log b r = z :=
  le_antisymm (Int.lt_add_one_iff.mp ((Int.lt_zpow_iff_log_lt hb hr).mp h2))
    ((Int.zpow_le_iff_le_log hb hr).mp h1)

theorem jsToNumber_zero : jsToNumber 0 = 0 := by
  simp [jsToNumber]

theorem jsToNumber_zpow (z : ℤ) : jsToNumber ((2 : ℚ) ^ z) = 2 ^ z := by
  have hpos : (0 : ℚ) < 2 ^ z := zpow_pos (by norm_num) z
  have hne : ((2 : ℚ) ^ z) ≠ 0 := ne_of_gt hpos
  have hnlt : ¬((2 : ℚ) ^ z < 0) := not_lt.mpr hpos.le
  have habs : |(2 : ℚ) ^ z| = 2 ^ z := abs_of_pos hpos
  have hlog : Int.log 2 |(2 : ℚ) ^ z| = z := by
    rw [habs]
    have h := Int.log_zpow (b := 2) (R := ℚ) (by norm_num) z
    simpa using h
  unfold jsToNumber
  rw [if_neg hne, hlog, habs, if_neg hnlt, one_mul]
  show (rne ((2 : ℚ) ^ z * 2 ^ ((52 : ℤ) - z)) : ℚ) * 2 ^ (z - 52) = 2 ^ z
  have hcomb : (2 : ℚ) ^ z * 2 ^ ((52 : ℤ) - z) = ((2 ^ 52 : ℤ) : ℚ) := by
    rw [← zpow_add₀ (by norm_num : (2 : ℚ) ≠ 0)]
    have he : z + ((52 : ℤ) - z) = (52 : ℕ) := by ring
    rw [he, zpow_natCast]
    push_cast
    ring
  rw [hcomb, rne_intCast]
  push_cast
  rw [show ((4503599627370496 : ℚ)) = 2 ^ (52 : ℤ) by norm_num,
    ← zpow_add₀ (by norm_num : (2 : ℚ) ≠ 0)]
  congr 1
  ring

theorem jsToNumber_one : jsToNumber 1 = 1 := by
  have h := jsToNumber_zpow 0
  simpa using h

theorem jsToNumber_half : jsToNumber (1 / 2) = 1 / 2 := by
  have h := jsToNumber_zpow (-1)
  rw [show (2 : ℚ) ^ (-1 : ℤ) = 1 / 2 by norm_num] at h
  exact h

theorem rne_one : rne 1 = 1 := by
  have h := rne_intCast 1
  simpa using h

theorem decRound_one : decRound 1 1 = 1 := by
  unfold decRound
  rw [abs_one, Int.log_one_right]
  have harg : (1 : ℚ) * 10 ^ (((1 : ℕ) : ℤ) - 1 - 0) = ((1 : ℤ) : ℚ) := by
    push_cast
    norm_num
  rw [harg, rne_intCast]
  push_cast
  norm_num

theorem decRound_half : decRound (1 / 2) 1 = 1 / 2 := by
  have hlog : Int.log 10 |(1 / 2 : ℚ)| = -1 := by
    rw [show |(1 / 2 : ℚ)| = 1 / 2 by norm_num]
    exact log_eq_of_bounds (by norm_num) (by norm_num) (by norm_num) (by norm_num)
  unfold decRound
  rw [hlog]
  have harg : (1 / 2 : ℚ) * 10 ^ (((1 : ℕ) : ℤ) - 1 - (-1)) = ((5 : ℤ) : ℚ) := by
    push_cast
    norm_num
  rw [harg, rne_intCast]
  push_cast
  norm_num

theorem jsNumToDecimal_zero : jsNumToDecimal 0 = 0 := by
  simp [jsNumToDecimal]

theorem jsNumToDecimal_fix {d : ℚ} (hd : d ≠ 0) (h1 : decRound d 1 = d)
    (h2 : jsToNumber d = d) : jsNumToDecimal d = d := by
  rw [jsNumToDecimal, if_neg hd, show (17 : ℕ) = 16 + 1 by norm_num, jsNumToDecimalAux,
    h1, if_pos h2]

theorem jsNumToDecimal_one : jsNumToDecimal 1 = 1 :=
  jsNumToDecimal_fix one_ne_zero decRound_one jsToNumber_one

theorem jsNumToDecimal_half : jsNumToDecimal (1 / 2) = 1 / 2 :=
  jsNumToDecimal_fix (by norm_num) decRound_half jsToNumber_half

theorem slippageFactor_zero : jsNumToDecimal (jsSub 1 (jsDiv 0 100)) = 1 := by
  have h1 : jsDiv 0 100 = 0 := by
    unfold jsDiv
    rw [show (0 : ℚ) / 100 = 0 by norm_num, jsToNumber_zero]
  rw [h1]
  have h2 : jsSub 1 0 = 1 := by
    unfold jsSub
    rw [show (1 : ℚ) - 0 = 1 by norm_num, jsToNumber_one]
  rw [h2, jsNumToDecimal_one]

theorem slippageFactor_hundred : jsNumToDecimal (jsSub 1 (jsDiv 100 100)) = 0 := by
  have h1 : jsDiv 100 100 = 1 := by
    unfold jsDiv
    rw [show (100 : ℚ) / 100 = 1 by norm_num, jsToNumber_one]
  rw [h1]
  have h2 : jsSub 1 1 = 0 := by
    unfold jsSub
    rw [show (1 : ℚ) - 1 = 0 by norm_num, jsToNumber_zero]
  rw [h2, jsNumToDecimal_zero]

theorem slippageFactor_fifty : jsNumToDecimal (jsSub 1 (jsDiv 50 100)) = 1 / 2 := by
  have h1 : jsDiv 50 100 = 1 / 2 := by
    unfold jsDiv
    rw [show (50 : ℚ) / 100 = 1 / 2 by norm_num, jsToNumber_half]
  rw [h1]
  have h2 : jsSub 1 (1 / 2) = 1 / 2 := by
    unfold jsSub
    rw [show (1 : ℚ) - 1 / 2 = 1 / 2 by norm_num, jsToNumber_half]
  rw [h2, jsNumToDecimal_half]

theorem decRound_form (d : ℚ) {k : ℕ} (hk : k ≤ 17) :
    ∃ s t : ℤ, decRound d k = (s : ℚ) * 10 ^ t ∧ |s| ≤ 10 ^ 17 := by
  refine ⟨rne (d * 10 ^ ((k : ℤ) - 1 - Int.log 10 |d|)),
    Int.log 10 |d| - ((k : ℤ) - 1), rfl, ?_⟩
  have habs : |d * 10 ^ ((k : ℤ) - 1 - Int.log 10 |d|)| < (((10 : ℤ) ^ k : ℤ) : ℚ) := by
    rw [abs_mul, abs_of_pos (zpow_pos (by norm_num : (0 : ℚ) < 10) _)]
    have hlt : |d| < (10 : ℚ) ^ (Int.log 10 |d| + 1) := by
      have h := Int.lt_zpow_succ_log_self (b := 10) (R := ℚ) (by norm_num) |d|
      simpa using h
    calc |d| * (10 : ℚ) ^ ((k : ℤ) - 1 - Int.log 10 |d|)
        < (10 : ℚ) ^ (Int.log 10 |d| + 1) * 10 ^ ((k : ℤ) - 1 - Int.log 10 |d|) :=
          mul_lt_mul_of_pos_right hlt (zpow_pos (by norm_num) _)
      _ = (10 : ℚ) ^ (k : ℤ) := by
          rw [← zpow_add₀ (by norm_num : (10 : ℚ) ≠ 0)]
          congr 1
          ring
      _ = (((10 : ℤ) ^ k : ℤ) : ℚ) := by
          push_cast
          rw [zpow_natCast]
  have hle := abs_rne_le habs
  calc |rne (d * 10 ^ ((k : ℤ) - 1 - Int.log 10 |d|))| ≤ 10 ^ k := hle
    _ ≤ 10 ^ 17 := pow_le_pow_right₀ (by norm_num) hk

theorem jsNumToDecimalAux_form (d : ℚ) :
    ∀ fuel k, k + fuel = 18 →
      ∃ s t : ℤ, jsNumToDecimalAux d k fuel = (s : ℚ) * 10 ^ t ∧ |s| ≤ 10 ^ 17 := by
  intro fuel
  induction fuel with
  | zero =>
    intro k _
    simpa [jsNumToDecimalAux] using decRound_form d (le_refl 17)
  | succ fuel ih =>
    intro k hk
    rw [jsNumToDecimalAux]
    split_ifs with h
    · exact decRound_form d (by omega)
    · exact ih (k + 1) (by omega)

theorem jsNumToDecimal_form (d : ℚ) :
    ∃ s t : ℤ, jsNumToDecimal d = (s : ℚ) * 10 ^ t ∧ |s| ≤ 10 ^ 17 := by
  by_cases hd : d = 0
  · exact ⟨0, 0, by simp [jsNumToDecimal, hd], by norm_num⟩
  · rw [jsNumToDecimal, if_neg hd]
    exact jsNumToDecimalAux_form d 17 1 (by norm_num)

theorem not_rep_twenty_digits (s t : ℤ) (hs : |s| ≤ 10 ^ 17) :
    (s : ℚ) * 10 ^ t ≠ (33333333333333333333 : ℚ) / 100000000000000000000 := by
  intro heq
  have h1 : (s : ℚ) * 10 ^ (t + 20) = 33333333333333333333 := by
    calc (s : ℚ) * 10 ^ (t + 20) = (s : ℚ) * 10 ^ t * 10 ^ (20 : ℤ) := by
          rw [mul_assoc, ← zpow_add₀ (by norm_num : (10 : ℚ) ≠ 0)]
      _ = (33333333333333333333 : ℚ) / 100000000000000000000 * 10 ^ (20 : ℤ) := by rw [heq]
      _ = 33333333333333333333 := by norm_num
  rcases le_or_lt 0 (t + 20) with hu | hu
  · obtain ⟨n, hn⟩ : ∃ n : ℕ, t + 20 = (n : ℤ) := ⟨(t + 20).toNat, (Int.toNat_of_nonneg hu).symm⟩
    rw [hn, zpow_natCast] at h1
    have h2 : s * 10 ^ n = 33333333333333333333 := by exact_mod_cast h1
    rcases Nat.eq_zero_or_pos n with rfl | hn0
    · rw [pow_zero, mul_one] at h2
      rw [h2] at hs
      norm_num at hs
    · have h10 : (10 : ℤ) ∣ 33333333333333333333 := by
        rw [← h2]
        exact Dvd.dvd.mul_left (dvd_pow_self 10 hn0.ne') s
      norm_num at h10
  · obtain ⟨m, hm⟩ : ∃ m : ℕ, t + 20 = -(m : ℤ) := by
      refine ⟨(-(t + 20)).toNat, ?_⟩
      have := Int.toNat_of_nonneg (by omega : 0 ≤ -(t + 20))
      omega
    have h2 : (s : ℚ) = 33333333333333333333 * 10 ^ (m : ℤ) := by
      have hmul := congrArg (fun x => x * (10 : ℚ) ^ (m : ℤ)) h1
      simp only at hmul
      rw [mul_assoc, ← zpow_add₀ (by norm_num : (10 : ℚ) ≠ 0), hm] at hmul
      simpa using hmul
    rw [zpow_natCast] at h2
    have h3 : s = 33333333333333333333 * 10 ^ m := by exact_mod_cast h2
    have h4 : (1 : ℤ) ≤ 10 ^ m := by
      calc (1 : ℤ) = 1 ^ m := (one_pow m).symm
        _ ≤ 10 ^ m := pow_le_pow_left₀ (by norm_num) (by norm_num) m
    have h5 : (33333333333333333333 : ℤ) ≤ |s| := by
      rw [h3, abs_mul, abs_of_nonneg (by positivity : (0 : ℤ) ≤ (10 : ℤ) ^ m),
        show |(33333333333333333333 : ℤ)| = 33333333333333333333 by norm_num]
      nlinarith [h4]
    have : (33333333333333333333 : ℤ) ≤ 10 ^ 17 := le_trans h5 hs
    norm_num at this

theorem not_rep_third (s t : ℤ) : (s : ℚ) * 10 ^ t ≠ 1 / 3 := by
  intro heq
  have h1 : (s : ℚ) * 10 ^ t * 3 = 1 := by
    rw [heq]
    norm_num
  rcases le_or_lt 0 t with hu | hu
  · obtain ⟨n, hn⟩ : ∃ n : ℕ, t = (n : ℤ) := ⟨t.toNat, (Int.toNat_of_nonneg hu).symm⟩
    rw [hn, zpow_natCast] at h1
    have h2 : s * 10 ^ n * 3 = 1 := by exact_mod_cast h1
    have h3 : (3 : ℤ) ∣ 1 := ⟨s * 10 ^ n, by linarith⟩
    norm_num at h3
  · obtain ⟨m, hm⟩ : ∃ m : ℕ, t = -(m : ℤ) := by
      refine ⟨(-t).toNat, ?_⟩
      have := Int.toNat_of_nonneg (by omega : 0 ≤ -t)
      omega
    have h2 : (s : ℚ) * 3 = 10 ^ (m : ℤ) := by
      have hmul := congrArg (fun x => x * (10 : ℚ) ^ (m : ℤ)) h1
      simp only at hmul
      rw [show (s : ℚ) * 10 ^ t * 3 * 10 ^ (m : ℤ) = (s : ℚ) * 3 * (10 ^ t * 10 ^ (m : ℤ))
          by ring, ← zpow_add₀ (by norm_num : (10 : ℚ) ≠ 0), hm] at hmul
      simpa using hmul
    rw [zpow_natCast] at h2
    have h3 : s * 3 = 10 ^ m := by exact_mod_cast h2
    have h4 : (3 : ℤ) ∣ 10 ^ m := ⟨s, by linarith⟩
    have h5 : (3 : ℤ) ∣ 10 := Int.prime_three.dvd_of_dvd_pow h4
    norm_num at h5

theorem foldl_priceStep_no_mention (l : List PoolEntry) (acc : String → Option ℚ) (s : String)
    (h : ∀ e ∈ l, ¬poolMentions e s) : (l.foldl priceStep acc) s = acc s := by
  induction l generalizing acc with
  | nil => rfl
  | cons hd tl ih =>
    rw [List.foldl_cons, ih _ (fun e he => h e (List.mem_cons_of_mem _ he))]
    obtain ⟨h1, h2⟩ := not_or.mp (h hd (List.mem_cons_self hd tl))
    unfold priceStep
    rw [if_neg fun hc => h2 hc.symm, if_neg fun hc => h1 hc.symm]

theorem tokenPriceCache_last (l₁ : List PoolEntry) (e : PoolEntry) (l₂ : List PoolEntry)
    (s : String) (hm : poolMentions e s) (hl : ∀ x ∈ l₂, ¬poolMentions x s) :
    tokenPriceCache (l₁ ++ e :: l₂) s = some (lastSeenPrice e s) := by
  unfold tokenPriceCache
  rw [List.foldl_append, List.foldl_cons, foldl_priceStep_no_mention l₂ _ s hl]
  unfold priceStep lastSeenPrice
  by_cases h2 : s = e.2.2.symbol
  · rw [if_pos h2, if_pos h2]
  · rw [if_neg h2, if_neg h2]
    have h1 : e.2.1.symbol = s := by
      rcases hm with h | h
      · exact h
      · exact absurd h.symm h2
    rw [if_pos h1.symm]

theorem tokenPriceCache_absent (ps : List PoolEntry) (s : String)
    (h : ∀ e ∈ ps, ¬poolMentions e s) : tokenPriceCache ps s = none :=
  foldl_priceStep_no_mention ps _ s h

theorem bnDp_eq_self {dp : ℕ} {q : ℚ} (z : ℤ) (h : q * 10 ^ dp = (z : ℚ)) : bnDp dp q = q := by
  unfold bnDp
  rw [h, roundHalfAway_intCast, ← h]
  field_simp

theorem roundHalfAway_zero : roundHalfAway 0 = 0 := by
  have h := roundHalfAway_intCast 0
  simpa using h

theorem poolMatches_eraseFees (a b : String) (e : PoolEntry) :
    poolMatches a b (eraseFees e) = poolMatches a b e := by
  simp [poolMatches, eraseFees]

theorem findPool_eraseFees (ps : List PoolEntry) (a b : String) :
    findPool (ps.map eraseFees) a b = (findPool ps a b).map eraseFees := by
  unfold findPool
  rw [List.find?_map]
  exact congrArg _ (find_congr _ _ (fun e => poolMatches_eraseFees a b e) ps)

theorem directQuote_eraseFees (ps : List PoolEntry) (a b : String) (amt : ℚ) :
    directQuote (ps.map eraseFees) a b amt = directQuote ps a b amt := by
  unfold directQuote
  rw [findPool_eraseFees]
  cases h : findPool ps a b with
  | none => rfl
  | some e =>
    by_cases hc : lc a = lc e.2.1.symbol
    · simp [eraseFees, hc]
    · simp [eraseFees, hc]

theorem getTokenToTokenPrice_eraseFees (ps : List PoolEntry) (a b : String) (amt : ℚ) :
    getTokenToTokenPrice (ps.map eraseFees) a b amt = getTokenToTokenPrice ps a b amt := by
  unfold getTokenToTokenPrice
  simp only [directQuote_eraseFees]

end Helpers

/-! ## Claim theorems -/

/-- C6: `findPool` (the lookup of `getPoolPricesPairs`) is symmetric in
its two symbols, matches case-insensitively, and returns exactly the
first entry in original feed order matching the pair in either
orientation. -/
theorem pool_lookup_symmetric_ci_first_match (ps : List PoolEntry) (A B : String) :
    findPool ps A B = findPool ps B A ∧
      (∀ A' B', lc A' = lc A → lc B' = lc B → findPool ps A' B' = findPool ps A B) ∧
      ∀ e, findPool ps A B = some e ↔
        ∃ l₁ l₂, ps = l₁ ++ e :: l₂ ∧ poolMatches A B e = true ∧
          ∀ x ∈ l₁, poolMatches A B x = false :=
  ⟨findPool_symm ps A B, fun A' B' ha hb => findPool_lc ps A' B' A B ha hb,
    fun e => findPool_eq_some_iff ps A B e⟩

/-- C9: the derived token-price table maps every symbol occurring in some
pool to the quoted price of its last occurrence in feed order (within an
entry, `assetB` overwrites `assetA`), and `getTokenUsdPrice` of a symbol
occurring in no pool is `none` (absent), not an error and not zero. -/
theorem price_table_last_seen (ps : List PoolEntry) (s : String) :
    (∀ l₁ e l₂, ps = l₁ ++ e :: l₂ → poolMentions e s → (∀ x ∈ l₂, ¬poolMentions x s) →
      getTokenUsdPrice ps s = some (lastSeenPrice e s)) ∧
      ((∀ e ∈ ps, ¬poolMentions e s) → getTokenUsdPrice ps s = none) := by
  constructor
  · intro l₁ e l₂ hps hm hl
    rw [getTokenUsdPrice, hps]
    exact tokenPriceCache_last l₁ e l₂ s hm hl
  · intro h
    exact tokenPriceCache_absent ps s h

/-- C10: quoting never reads the pool `fees` field — two feeds that agree
after erasing fees produce identical `getTokenToTokenPrice` results for
every request. -/
theorem quote_ignores_fees (ps ps' : List PoolEntry)
    (h : ps.map eraseFees = ps'.map eraseFees) (a b : String) (amt : ℚ) :
    getTokenToTokenPrice ps a b amt = getTokenToTokenPrice ps' a b amt := by
  rw [← getTokenToTokenPrice_eraseFees ps a b amt, h,
    getTokenToTokenPrice_eraseFees ps' a b amt]

/-- C1: `getSwapRoute` returns a one-hop route through the first matching
direct pool whenever one exists (preferred unconditionally, whether or
not a bridged path exists); otherwise the two-hop route `from → OSMO`,
`OSMO → to` when both legs have pools; otherwise it fails with the
`no-match` error; and a returned route never has more than two hops. -/
theorem route_resolution_contract (ps : List PoolEntry) (f t : String) :
    (∀ e, findPool ps f t = some e →
      ∃ h₁ : Hop, getSwapRoute ps f t = .ok [h₁] ∧ h₁.poolId = e.1) ∧
      (findPool ps f t = none →
        ∀ eA eB, findPool ps f ("OSMO") = some eA → findPool ps ("OSMO") t = some eB →
          ∃ h₁ h₂ : Hop, getSwapRoute ps f t = .ok [h₁, h₂] ∧ h₁.poolId = eA.1 ∧
            h₂.poolId = eB.1) ∧
      (findPool ps f t = none →
        findPool ps f ("OSMO") = none ∨ findPool ps ("OSMO") t = none →
          getSwapRoute ps f t = .error ("no-match")) ∧
      ∀ r, getSwapRoute ps f t = .ok r → r.length ≤ 2 := by
  refine ⟨?_, ?_, ?_, ?_⟩
  · intro e he
    refine ⟨⟨e.1, (if lc f = lc e.2.1.symbol then e.2.2 else e.2.1).denom⟩, ?_, rfl⟩
    simp only [getSwapRoute, he]
  · intro h0 eA eB hA hB
    refine ⟨⟨eA.1, (if lc f = lc eA.2.1.symbol then eA.2.2 else eA.2.1).denom⟩,
      ⟨eB.1, (if ("osmo") = lc eB.2.1.symbol then eB.2.2 else eB.2.1).denom⟩, ?_, rfl, rfl⟩
    simp only [getSwapRoute, h0, hA, hB]
  · intro h0 hor
    rcases hor with hA | hB
    · simp only [getSwapRoute, h0, hA]
    · cases hA : findPool ps f ("OSMO") with
      | none => simp only [getSwapRoute, h0, hA]
      | some eA => simp only [getSwapRoute, h0, hA, hB]
  · intro r hr
    unfold getSwapRoute at hr
    cases h0 : findPool ps f t with
    | some e =>
      simp only [h0] at hr
      cases hr
      simp
    | none =>
      simp only [h0] at hr
      cases hA : findPool ps f ("OSMO") with
      | none =>
        simp only [hA] at hr
        cases hr
      | some eA =>
        simp only [hA] at hr
        cases hB : findPool ps ("OSMO") t with
        | none =>
          simp only [hB] at hr
          cases hr
        | some eB =>
          simp only [hB] at hr
          cases hr
          simp

/-- C8: when no direct pool exists but both bridge legs do, the route has
exactly two hops, the first hop's `tokenOutDenom` is the denom recorded
for the `OSMO` side of the `from → OSMO` pool entry, and the second
hop's `tokenOutDenom` is the denom recorded for the destination side of
the `OSMO → to` pool entry. -/
theorem bridged_route_denoms (ps : List PoolEntry) (f t : String) (eA eB : PoolEntry)
    (h0 : findPool ps f t = none) (hA : findPool ps f ("OSMO") = some eA)
    (hB : findPool ps ("OSMO") t = some eB) :
    ∃ h₁ h₂ : Hop, getSwapRoute ps f t = .ok [h₁, h₂] ∧
      ((h₁.tokenOutDenom = eA.2.1.denom ∧ lc eA.2.1.symbol = ("osmo")) ∨
        (h₁.tokenOutDenom = eA.2.2.denom ∧ lc eA.2.2.symbol = ("osmo"))) ∧
      ((h₂.tokenOutDenom = eB.2.1.denom ∧ lc eB.2.1.symbol = lc t) ∨
        (h₂.tokenOutDenom = eB.2.2.denom ∧ lc eB.2.2.symbol = lc t)) := by
  have hosmo : lc ("OSMO") = ("osmo") := rfl
  have hf : lc f ≠ ("osmo") := by
    intro hfo
    have hcongr := findPool_lc ps ("OSMO") t f t (by rw [hosmo, hfo]) rfl
    rw [hcongr, h0] at hB
    cases hB
  have ht : lc t ≠ ("osmo") := by
    intro hto
    have hcongr := findPool_lc ps f ("OSMO") f t rfl (by rw [hosmo, hto])
    rw [hcongr, h0] at hA
    cases hA
  have hmA := findPool_matches hA
  have hmB := findPool_matches hB
  simp only [poolMatches, decide_eq_true_eq] at hmA hmB
  refine ⟨⟨eA.1, (if lc f = lc eA.2.1.symbol then eA.2.2 else eA.2.1).denom⟩,
    ⟨eB.1, (if ("osmo") = lc eB.2.1.symbol then eB.2.2 else eB.2.1).denom⟩, ?_, ?_, ?_⟩
  · simp only [getSwapRoute, h0, hA, hB]
  · rcases hmA with ⟨hA1, hA2⟩ | ⟨hA1, hA2⟩
    · rw [if_pos hA1.symm]
      exact Or.inr ⟨rfl, by rw [hA2, hosmo]⟩
    · rw [if_neg fun hc => hf (by rw [hc, hA1, hosmo])]
      exact Or.inl ⟨rfl, by rw [hA1, hosmo]⟩
  · rcases hmB with ⟨hB1, hB2⟩ | ⟨hB1, hB2⟩
    · have hpos : ("osmo") = lc eB.2.1.symbol := by rw [hB1, hosmo]
      rw [if_pos hpos]
      exact Or.inr ⟨rfl, hB2⟩
    · have hneg : ¬(("osmo") = lc eB.2.1.symbol) := fun hc => ht (by rw [← hB1, ← hc])
      rw [if_neg hneg]
      exact Or.inl ⟨rfl, hB1⟩

/-- C5: when one endpoint of the request is the bridge symbol `OSMO`,
quoting and routing degenerate to the direct lookup alone: a direct pool
gives the direct result (one hop for routing, so no leg from the bridge
to itself is ever produced), and if the direct lookup fails the
operation fails with the `no-match`-derived error.  For quoting this is
the explicit `tokenASymbol !== 'OSMO' && tokenBSymbol !== 'OSMO'` guard;
for routing it holds because each fallback leg repeats the failed direct
lookup. -/
theorem bridge_endpoint_direct_only (ps : List PoolEntry) (a b : String) (amt : ℚ)
    (h : a = "OSMO" ∨ b = "OSMO") :
    (∀ v, directQuote ps a b amt = some v → getTokenToTokenPrice ps a b amt = .ok v) ∧
      (directQuote ps a b amt = none →
        getTokenToTokenPrice ps a b amt = .error ("Error: no-match")) ∧
      (∀ e, findPool ps a b = some e → ∃ h₁ : Hop, getSwapRoute ps a b = .ok [h₁]) ∧
      (findPool ps a b = none → getSwapRoute ps a b = .error ("no-match")) := by
  refine ⟨?_, ?_, ?_, ?_⟩
  · intro v hv
    simp only [getTokenToTokenPrice, hv]
  · intro hv
    simp only [getTokenToTokenPrice, hv]
    rw [if_neg]
    rcases h with rfl | rfl
    · exact fun hc => hc.1 rfl
    · exact fun hc => hc.2 rfl
  · intro e he
    refine ⟨⟨e.1, (if lc a = lc e.2.1.symbol then e.2.2 else e.2.1).denom⟩, ?_⟩
    simp only [getSwapRoute, he]
  · intro h0
    rcases h with rfl | rfl
    · cases hA : findPool ps ("OSMO") ("OSMO") with
      | none => simp only [getSwapRoute, h0, hA]
      | some eA => simp only [getSwapRoute, h0, hA]
    · simp only [getSwapRoute, h0]

/-! ## Witness fixtures -/

/-- Fixture: the `ATOM` side of witness pool 1. -/
def wATOM : PoolAsset := ⟨"ATOM", "uatom", "0.2", 1000, 10⟩

/-- Fixture: the `OSMO` side of witness pool 1. -/
def wOSMO : PoolAsset := ⟨"OSMO", "uosmo", "0.2", 500, 1⟩

/-- Fixture: the `OSMO` side of witness pool 2. -/
def wOSMO2 : PoolAsset := ⟨"OSMO", "uosmo", "0.3", 400, 1⟩

/-- Fixture: the `JUNO` side of witness pool 2. -/
def wJUNO : PoolAsset := ⟨"JUNO", "ujuno", "0.3", 200, 2⟩

/-- Fixture feed: an `ATOM`/`OSMO` pool and an `OSMO`/`JUNO` pool, so
`ATOM → JUNO` is reachable only through the bridge. -/
def wps : List PoolEntry := [("1", wATOM, wOSMO), ("2", wOSMO2, wJUNO)]

/-- Witness for C1 on the fixture feed: `ATOM → JUNO` has no direct pool
and resolves to the two-hop route through pools `1` and `2`. -/
theorem route_resolution_contract_witness :
    ∃ h₁ h₂ : Hop, getSwapRoute wps "ATOM" "JUNO" = .ok [h₁, h₂] ∧ h₁.poolId = "1" ∧
      h₂.poolId = "2" :=
  (route_resolution_contract wps "ATOM" "JUNO").2.1 rfl ("1", wATOM, wOSMO)
    ("2", wOSMO2, wJUNO) rfl rfl

/-- Witness for C8 on the fixture feed: the bridged `ATOM → JUNO` route's
intermediate denom is the bridge denom of pool `1` and its final denom
is `JUNO`'s denom in pool `2`. -/
theorem bridged_route_denoms_witness :
    ∃ h₁ h₂ : Hop, getSwapRoute wps "ATOM" "JUNO" = .ok [h₁, h₂] ∧
      ((h₁.tokenOutDenom = wATOM.denom ∧ lc wATOM.symbol = ("osmo")) ∨
        (h₁.tokenOutDenom = wOSMO.denom ∧ lc wOSMO.symbol = ("osmo"))) ∧
      ((h₂.tokenOutDenom = wOSMO2.denom ∧ lc wOSMO2.symbol = lc "JUNO") ∨
        (h₂.tokenOutDenom = wJUNO.denom ∧ lc wJUNO.symbol = lc "JUNO")) :=
  bridged_route_denoms wps "ATOM" "JUNO" ("1", wATOM, wOSMO) ("2", wOSMO2, wJUNO) rfl rfl rfl

/-- Witness for C6 on the fixture feed: lower-cased queries find the same
pool, and the `ATOM`/`OSMO` lookup returns the first matching entry. -/
theorem pool_lookup_symmetric_ci_first_match_witness :
    findPool wps "atom" "osmo" = findPool wps "ATOM" "OSMO" ∧
      findPool wps "ATOM" "OSMO" = some ("1", wATOM, wOSMO) := by
  constructor
  · exact (pool_lookup_symmetric_ci_first_match wps "ATOM" "OSMO").2.1 "atom" "osmo" rfl rfl
  · exact ((pool_lookup_symmetric_ci_first_match wps "ATOM" "OSMO").2.2
      ("1", wATOM, wOSMO)).mpr ⟨[], [("2", wOSMO2, wJUNO)], rfl, rfl, by simp⟩

/-- Witness for C5 on the fixture feed: quoting from `OSMO` with a direct
pool yields the direct price, and routing from `OSMO` to an unlisted
symbol fails. -/
theorem bridge_endpoint_direct_only_witness :
    getTokenToTokenPrice wps "OSMO" "JUNO" 4 = .ok (bnDiv 1 2 * 4) ∧
      getSwapRoute wps "OSMO" "BTC" = .error ("no-match") := by
  constructor
  · exact (bridge_endpoint_direct_only wps "OSMO" "JUNO" 4 (Or.inl rfl)).1 (bnDiv 1 2 * 4) rfl
  · exact (bridge_endpoint_direct_only wps "OSMO" "BTC" 0 (Or.inl rfl)).2.2.2 rfl

/-- Fixture asset for the price-table witness (`AAA`, price 3). -/
def vA3 : PoolAsset := ⟨"AAA", "ua", "0", 1, 3⟩

/-- Fixture asset for the price-table witness (`BBB`, price 4). -/
def vB4 : PoolAsset := ⟨"BBB", "ub", "0", 1, 4⟩

/-- Fixture asset for the price-table witness (`BBB`, price 7). -/
def vB7 : PoolAsset := ⟨"BBB", "ub", "0", 1, 7⟩

/-- Fixture asset for the price-table witness (`CCC`, price 8). -/
def vC8 : PoolAsset := ⟨"CCC", "uc", "0", 1, 8⟩

/-- Fixture feed in which `BBB` appears in two pools with different
quoted prices. -/
def vps : List PoolEntry := [("1", vA3, vB4), ("2", vB7, vC8)]

/-- Witness for C9 on the fixture feed: `BBB` takes its last-seen price 7
(not the earlier 4, and no averaging), and an absent symbol yields
`none`. -/
theorem price_table_last_seen_witness :
    getTokenUsdPrice vps "BBB" = some 7 ∧ getTokenUsdPrice vps "ZZZ" = none := by
  constructor
  · have h := (price_table_last_seen vps "BBB").1 [("1", vA3, vB4)] ("2", vB7, vC8) [] rfl
      (Or.inl rfl) (by simp)
    rw [h]
    rfl
  · exact (price_table_last_seen vps "ZZZ").2 (by decide)

/-- Fixture feed for the fee-independence witness (fees `0.1`/`0.2`). -/
def fps1 : List PoolEntry := [("1", ⟨"AAA", "ua", "0.1", 1, 6⟩, ⟨"BBB", "ub", "0.2", 1, 3⟩)]

/-- Fixture feed identical to `fps1` except for its fees (`0.9`/`0.8`). -/
def fps2 : List PoolEntry := [("1", ⟨"AAA", "ua", "0.9", 1, 6⟩, ⟨"BBB", "ub", "0.8", 1, 3⟩)]

/-- Witness for C10: the two fixture feeds differing only in fees quote
identically. -/
theorem quote_ignores_fees_witness :
    getTokenToTokenPrice fps1 "AAA" "BBB" 2 = getTokenToTokenPrice fps2 "AAA" "BBB" 2 :=
  quote_ignores_fees fps1 fps2 rfl "AAA" "BBB" 2

/-- C7 (amended): for a pair with a direct pool the quote is
`bnDiv fromPrice toPrice * amount` — the price quotient rounded to 20
decimal places (the bignumber.js `DECIMAL_PLACES` default) times the
amount — which coincides with the claim's exact
`amount * (fromPrice / toPrice)` whenever the exact quotient has at most
20 decimal places, as in the spec's `ATOM`/`OSMO` scenario. -/
theorem direct_quote_formula (ps : List PoolEntry) (a b : String) (amt : ℚ) (e : PoolEntry)
    (he : findPool ps a b = some e) :
    getTokenToTokenPrice ps a b amt =
        .ok (bnDiv (if lc a = lc e.2.1.symbol then e.2.1 else e.2.2).price
          (if lc a = lc e.2.1.symbol then e.2.2 else e.2.1).price * amt) ∧
      ∀ z : ℤ,
        (if lc a = lc e.2.1.symbol then e.2.1 else e.2.2).price /
              (if lc a = lc e.2.1.symbol then e.2.2 else e.2.1).price * 10 ^ 20 = (z : ℚ) →
          getTokenToTokenPrice ps a b amt =
            .ok (amt * ((if lc a = lc e.2.1.symbol then e.2.1 else e.2.2).price /
              (if lc a = lc e.2.1.symbol then e.2.2 else e.2.1).price)) := by
  by_cases hc : lc a = lc e.2.1.symbol
  · simp only [if_pos hc]
    have hdq : directQuote ps a b amt = some (bnDiv e.2.1.price e.2.2.price * amt) := by
      unfold directQuote
      rw [he]
      simp only [Option.map_some', if_pos hc]
    refine ⟨by simp only [getTokenToTokenPrice, hdq], fun z hz => ?_⟩
    simp only [getTokenToTokenPrice, hdq]
    have hexact : bnDiv e.2.1.price e.2.2.price = e.2.1.price / e.2.2.price :=
      bnDp_eq_self z hz
    rw [hexact]
    exact congrArg Except.ok (mul_comm _ _)
  · simp only [if_neg hc]
    have hdq : directQuote ps a b amt = some (bnDiv e.2.2.price e.2.1.price * amt) := by
      unfold directQuote
      rw [he]
      simp only [Option.map_some', if_neg hc]
    refine ⟨by simp only [getTokenToTokenPrice, hdq], fun z hz => ?_⟩
    simp only [getTokenToTokenPrice, hdq]
    have hexact : bnDiv e.2.2.price e.2.1.price = e.2.2.price / e.2.1.price :=
      bnDp_eq_self z hz
    rw [hexact]
    exact congrArg Except.ok (mul_comm _ _)

/-- Fixture feed refuting the exact-quotient reading of C7: prices 1 and
3, whose quotient does not terminate within 20 decimal places. -/
def cps7 : List PoolEntry := [("1", ⟨"ATX", "uatx", "0", 1, 1⟩, ⟨"BTX", "ubtx", "0", 1, 3⟩)]

/-- Counterexample for C7 as stated: with pool prices 1 and 3 the quote
of one unit is the 20-decimal-place rounding of 1/3, not the exact
`x * (fromPrice / toPrice)`. -/
theorem direct_quote_formula_counterexample :
    getTokenToTokenPrice cps7 "ATX" "BTX" 1 ≠ .ok (1 * ((1 : ℚ) / 3)) := by
  have hred : getTokenToTokenPrice cps7 "ATX" "BTX" 1 = .ok (bnDiv 1 3 * 1) := rfl
  rw [hred]
  intro hcon
  injection hcon with hval
  have heval : bnDiv 1 3 = (33333333333333333333 : ℚ) / 100000000000000000000 := by
    unfold bnDiv bnDp roundHalfAway
    norm_num
  rw [heval] at hval
  norm_num at hval

/-- Fixture feed realising the spec's scenario: one pool listing `ATOM`
at price 10 and `OSMO` at price 1. -/
def sps : List PoolEntry := [("1", ⟨"ATOM", "uatom", "0", 1, 10⟩, ⟨"OSMO", "uosmo", "0", 1, 1⟩)]

/-- Witness for C7 (amended) on the spec's scenario feed:
`quote("ATOM","OSMO",1)` returns exactly 10. -/
theorem direct_quote_formula_witness : getTokenToTokenPrice sps "ATOM" "OSMO" 1 = .ok 10 := by
  have h := (direct_quote_formula sps "ATOM" "OSMO" 1
      (("1", ⟨"ATOM", "uatom", "0", 1, 10⟩, ⟨"OSMO", "uosmo", "0", 1, 1⟩) : PoolEntry) rfl).2
      (10 ^ 21)
      (show (10 : ℚ) / 1 * 10 ^ 20 = (((10 : ℤ) ^ 21 : ℤ) : ℚ) by norm_num)
  exact h.trans (show Except.ok (1 * ((10 : ℚ) / 1)) = Except.ok (10 : ℚ) by norm_num)

/-- C3 (amended): in a bridged quote the first leg's result is lowered to
a JS `number` and re-read by bignumber.js as its shortest round-tripping
decimal (`jsNumberRoundtrip`) before becoming the second leg's input
amount — a binary64 conversion limiting the intermediate to at most 17
significant decimal digits, not the claimed ≥ 18 unrounded digits. -/
theorem bridged_quote_intermediate (ps : List PoolEntry) (a b : String) (amt : ℚ)
    (ha : a ≠ "OSMO") (hb : b ≠ "OSMO") (h0 : directQuote ps a b amt = none)
    (vA : ℚ) (hA : directQuote ps a ("OSMO") amt = some vA)
    (vB : ℚ) (hB : directQuote ps ("OSMO") b (jsNumberRoundtrip vA) = some vB) :
    getTokenToTokenPrice ps a b amt = .ok vB := by
  simp only [getTokenToTokenPrice, h0]
  rw [if_pos (And.intro ha hb)]
  simp only [hA, hB]

/-- Witness for C3 (amended) on the fixture feed: the bridged
`ATOM → JUNO` quote is the second leg applied to the round-tripped first
leg. -/
theorem bridged_quote_intermediate_witness :
    getTokenToTokenPrice wps "ATOM" "JUNO" 1 =
      .ok (bnDiv 1 2 * jsNumberRoundtrip (bnDiv 10 1 * 1)) :=
  bridged_quote_intermediate wps "ATOM" "JUNO" 1 (by decide) (by decide) rfl
    (bnDiv 10 1 * 1) rfl (bnDiv 1 2 * jsNumberRoundtrip (bnDiv 10 1 * 1)) rfl

/-- Fixture feed refuting C3: the first leg quotes at prices 1 and 3,
producing the 20-digit decimal 0.33333333333333333333, and the second
leg's pool has equal prices, so any intermediate alteration is visible
in the result. -/
def cps3 : List PoolEntry :=
  [("1", ⟨"ATOM", "uatom", "0", 1, 1⟩, ⟨"OSMO", "uosmo", "0", 1, 3⟩),
    ("2", ⟨"OSMO", "uosmo", "0", 1, 1⟩, ⟨"JUNO", "ujuno", "0", 1, 1⟩)]

/-- Counterexample for C3 as stated: the bridged quote differs both from
the exact 20-decimal-place intermediate 0.33333333333333333333 (what an
unconverted pass-through would return, since the second leg multiplies
by 1) and from the infinite-precision 1/3 — the intermediate was forced
through a binary64 `number`, whose re-read decimal has at most 17
significant digits. -/
theorem bridged_quote_intermediate_counterexample :
    getTokenToTokenPrice cps3 "ATOM" "JUNO" 1 ≠
        .ok ((33333333333333333333 : ℚ) / 100000000000000000000) ∧
      getTokenToTokenPrice cps3 "ATOM" "JUNO" 1 ≠ .ok ((1 : ℚ) / 3) := by
  have hred : getTokenToTokenPrice cps3 "ATOM" "JUNO" 1 =
      .ok (bnDiv 1 1 * jsNumberRoundtrip (bnDiv 1 3 * 1)) := rfl
  have h11 : bnDiv 1 1 = 1 := by
    unfold bnDiv bnDp roundHalfAway
    norm_num
  obtain ⟨s, t, hform, hs⟩ := jsNumToDecimal_form (jsToNumber (bnDiv 1 3 * 1))
  have hval : getTokenToTokenPrice cps3 "ATOM" "JUNO" 1 = .ok ((s : ℚ) * 10 ^ t) := by
    rw [hred, h11, one_mul, jsNumberRoundtrip, hform]
  constructor
  · rw [hval]
    intro hcon
    injection hcon with hv
    exact not_rep_twenty_digits s t hs hv
  · rw [hval]
    intro hcon
    injection hcon with hv
    exact not_rep_third s t hv

/-- Auxiliary: a successful `swapTokens` call computed its two integer
amounts by the half-away rounding of the scaled input amount and of the
slippage-discounted scaled target amount. -/
theorem swapTokens_ok_values (ps : List PoolEntry) (coins : List SwapToken)
    (reg : String → Option NativeDenom) (f t : String) (fa ta s : ℚ) (m : SwapMsg)
    (hm : swapTokens ps coins reg f t fa ta s = .ok m) (dIn dOut : NativeDenom)
    (hdin : reg f = some dIn) (hdout : reg t = some dOut) :
    m.tokenInAmount = roundHalfAway (fa * 10 ^ dIn.coinDecimals) ∧
      m.tokenOutMinAmount =
        roundHalfAway
          (ta * 10 ^ dOut.coinDecimals * jsNumToDecimal (jsSub 1 (jsDiv s 100))) := by
  unfold swapTokens at hm
  cases h1 : coins.find? (fun c => c.symbol == f) with
  | none =>
    simp only [h1] at hm
    cases hm
  | some cIn =>
    simp only [h1, hdin] at hm
    cases h2 : coins.find? (fun c => c.symbol == t) with
    | none =>
      simp only [h2] at hm
      cases hm
    | some cOut =>
      simp only [h2, hdout] at hm
      cases h3 : getSwapRoute ps f t with
      | error err =>
        simp only [h3] at hm
        cases hm
      | ok r =>
        simp only [h3] at hm
        cases hm
        exact ⟨rfl, rfl⟩

/-- C2 (amended): both minimal-denom conversions in `swapTokens` round to
the nearest integer with ties away from zero (`decimalPlaces(0)` under
the bignumber.js default `ROUND_HALF_UP`), so they truncate exactly when
the fractional part is below one half and round up to the next integer
otherwise — they are not floor conversions. -/
theorem minimal_denom_rounding (ps : List PoolEntry) (coins : List SwapToken)
    (reg : String → Option NativeDenom) (f t : String) (fa ta s : ℚ) (m : SwapMsg)
    (hm : swapTokens ps coins reg f t fa ta s = .ok m) (dIn dOut : NativeDenom)
    (hdin : reg f = some dIn) (hdout : reg t = some dOut) (hfa : 0 ≤ fa)
    (hout : 0 ≤ ta * 10 ^ dOut.coinDecimals * jsNumToDecimal (jsSub 1 (jsDiv s 100))) :
    (Int.fract (fa * 10 ^ dIn.coinDecimals) < 1 / 2 →
      m.tokenInAmount = ⌊fa * 10 ^ dIn.coinDecimals⌋) ∧
      (1 / 2 ≤ Int.fract (fa * 10 ^ dIn.coinDecimals) →
        m.tokenInAmount = ⌊fa * 10 ^ dIn.coinDecimals⌋ + 1) ∧
      (Int.fract (ta * 10 ^ dOut.coinDecimals * jsNumToDecimal (jsSub 1 (jsDiv s 100))) < 1 / 2 →
        m.tokenOutMinAmount =
          ⌊ta * 10 ^ dOut.coinDecimals * jsNumToDecimal (jsSub 1 (jsDiv s 100))⌋) ∧
      (1 / 2 ≤ Int.fract (ta * 10 ^ dOut.coinDecimals * jsNumToDecimal (jsSub 1 (jsDiv s 100))) →
        m.tokenOutMinAmount =
          ⌊ta * 10 ^ dOut.coinDecimals * jsNumToDecimal (jsSub 1 (jsDiv s 100))⌋ + 1) := by
  obtain ⟨hin, hmin⟩ := swapTokens_ok_values ps coins reg f t fa ta s m hm dIn dOut hdin hdout
  have hfa10 : 0 ≤ fa * 10 ^ dIn.coinDecimals := by positivity
  obtain ⟨hlt, hge⟩ := roundHalfAway_floor hfa10
  obtain ⟨hlt', hge'⟩ := roundHalfAway_floor hout
  exact ⟨fun h => by rw [hin, hlt h], fun h => by rw [hin, hge h],
    fun h => by rw [hmin, hlt' h], fun h => by rw [hmin, hge' h]⟩

/-- Fixture asset list for the `swapTokens` fixtures. -/
def ccoins : List SwapToken := [⟨"AAA", "uaaa", "i"⟩, ⟨"BBB", "ubbb", "i"⟩]

/-- Fixture denom registry: `AAA` has 1 decimal, `BBB` has 0. -/
def creg : String → Option NativeDenom := fun s =>
  if s = "AAA" then some ⟨1, "uaaa"⟩ else if s = "BBB" then some ⟨0, "ubbb"⟩ else none

/-- Fixture feed with a direct `AAA`/`BBB` pool for the `swapTokens`
fixtures. -/
def cps2 : List PoolEntry := [("9", ⟨"AAA", "uaaa", "0", 1, 1⟩, ⟨"BBB", "ubbb", "0", 1, 1⟩)]

/-- Counterexample for C2 as stated: swapping 0.15 `AAA` (one decimal,
so 1.5 minimal units) with target 3 `BBB` at 50% slippage produces
amount 2 and minimum-output 2 — both half-way cases are rounded up,
where the claimed floor semantics would give 1. -/
theorem minimal_denom_rounding_counterexample :
    (swapTokens cps2 ccoins creg "AAA" "BBB" (3 / 20) 3 50).toOption.map
        (fun m => (m.tokenInAmount, m.tokenOutMinAmount)) = some (2, 2) ∧
      (2 : ℤ) ≠ ⌊(3 / 20 : ℚ) * 10 ^ 1⌋ ∧
      (2 : ℤ) ≠ ⌊(3 : ℚ) * 10 ^ 0 * (1 - 50 / 100)⌋ := by
  refine ⟨?_, by norm_num, by norm_num⟩
  have hred : swapTokens cps2 ccoins creg "AAA" "BBB" (3 / 20) 3 50 =
      .ok
        ⟨roundHalfAway ((3 / 20 : ℚ) * 10 ^ 1), "uaaa", (3 : ℚ) * 10 ^ 0,
          roundHalfAway ((3 : ℚ) * 10 ^ 0 * jsNumToDecimal (jsSub 1 (jsDiv 50 100))),
          [⟨"9", "ubbb"⟩]⟩ := rfl
  rw [hred]
  have h1 : roundHalfAway ((3 / 20 : ℚ) * 10 ^ 1) = 2 := by
    unfold roundHalfAway
    norm_num
  have h2 : roundHalfAway ((3 : ℚ) * 10 ^ 0 * jsNumToDecimal (jsSub 1 (jsDiv 50 100))) = 2 := by
    rw [slippageFactor_fifty]
    unfold roundHalfAway
    norm_num
  simp only [Except.toOption, Option.map, h1, h2]

/-- Witness for C2 (amended) on the fixture: 0.13 `AAA` is 1.3 minimal
units, whose fractional part is below one half, so the conversion
truncates to the floor, 1. -/
theorem minimal_denom_rounding_witness :
    (swapTokens cps2 ccoins creg "AAA" "BBB" (13 / 100) 3 0).toOption.map
      (fun m => m.tokenInAmount) = some ⌊(13 / 100 : ℚ) * 10 ^ 1⌋ := by
  have h := (minimal_denom_rounding cps2 ccoins creg "AAA" "BBB" (13 / 100) 3 0
      ⟨roundHalfAway ((13 / 100 : ℚ) * 10 ^ 1), "uaaa", (3 : ℚ) * 10 ^ 0,
        roundHalfAway ((3 : ℚ) * 10 ^ 0 * jsNumToDecimal (jsSub 1 (jsDiv 0 100))),
        [⟨"9", "ubbb"⟩]⟩
      rfl ⟨1, "uaaa"⟩ ⟨0, "ubbb"⟩ rfl rfl (by norm_num)
      (by rw [slippageFactor_zero]; norm_num)).1
      (by rw [show Int.fract ((13 / 100 : ℚ) * 10 ^ 1) = 13 / 10 - 1 from ?_] <;> norm_num [Int.fract])
  rw [show swapTokens cps2 ccoins creg "AAA" "BBB" (13 / 100) 3 0 =
      .ok
        ⟨roundHalfAway ((13 / 100 : ℚ) * 10 ^ 1), "uaaa", (3 : ℚ) * 10 ^ 0,
          roundHalfAway ((3 : ℚ) * 10 ^ 0 * jsNumToDecimal (jsSub 1 (jsDiv 0 100))),
          [⟨"9", "ubbb"⟩]⟩ from rfl]
  simp only [Except.toOption, Option.map]
  exact congrArg some h

/-- C4: `swapTokens` with `slippage = 0` produces a minimum-output floor
exactly equal to the (integer) minimal-denom target amount, and with
`slippage = 100` a floor of exactly 0. -/
theorem slippage_bounds (ps : List PoolEntry) (coins : List SwapToken)
    (reg : String → Option NativeDenom) (f t : String) (fa ta : ℚ) :
    (∀ m, swapTokens ps coins reg f t fa ta 0 = .ok m →
      ∀ dOut, reg t = some dOut → ∀ z : ℤ, ta * 10 ^ dOut.coinDecimals = (z : ℚ) →
        m.tokenOutMinAmount = z) ∧
      ∀ m, swapTokens ps coins reg f t fa ta 100 = .ok m → m.tokenOutMinAmount = 0 := by
  constructor
  · intro m hm dOut hdout z hz
    cases h1 : coins.find? (fun c => c.symbol == f) with
    | none =>
      unfold swapTokens at hm
      simp only [h1] at hm
      cases hm
    | some cIn =>
      cases h2 : reg f with
      | none =>
        unfold swapTokens at hm
        simp only [h1, h2] at hm
        cases hm
      | some dIn =>
        obtain ⟨-, hmin⟩ := swapTokens_ok_values ps coins reg f t fa ta 0 m hm dIn dOut h2 hdout
        rw [hmin, slippageFactor_zero, mul_one, hz, roundHalfAway_intCast]
  · intro m hm
    cases h1 : coins.find? (fun c => c.symbol == f) with
    | none =>
      unfold swapTokens at hm
      simp only [h1] at hm
      cases hm
    | some cIn =>
      cases h2 : reg f with
      | none =>
        unfold swapTokens at hm
        simp only [h1, h2] at hm
        cases hm
      | some dIn =>
        cases h3 : reg t with
        | none =>
          unfold swapTokens at hm
          simp only [h1, h2, h3] at hm
          cases h2' : coins.find? (fun c => c.symbol == t) with
          | none =>
            simp only [h2'] at hm
            cases hm
          | some cOut =>
            simp only [h2'] at hm
            cases hm
        | some dOut =>
          obtain ⟨-, hmin⟩ :=
            swapTokens_ok_values ps coins reg f t fa ta 100 m hm dIn dOut h2 h3
          rw [hmin, slippageFactor_hundred, mul_zero, roundHalfAway_zero]

/-- Witness for C4 on the fixture: target 5 `BBB` (0 decimals, so the
minimal-denom target is the integer 5) gives minimum-output 5 at 0%
slippage and 0 at 100% slippage. -/
theorem slippage_bounds_witness :
    (swapTokens cps2 ccoins creg "AAA" "BBB" 1 5 0).toOption.map
        (fun m => m.tokenOutMinAmount) = some 5 ∧
      (swapTokens cps2 ccoins creg "AAA" "BBB" 1 5 100).toOption.map
        (fun m => m.tokenOutMinAmount) = some 0 := by
  constructor
  · have h := (slippage_bounds cps2 ccoins creg "AAA" "BBB" 1 5).1
      ⟨roundHalfAway ((1 : ℚ) * 10 ^ 1), "uaaa", (5 : ℚ) * 10 ^ 0,
        roundHalfAway ((5 : ℚ) * 10 ^ 0 * jsNumToDecimal (jsSub 1 (jsDiv 0 100))),
        [⟨"9", "ubbb"⟩]⟩
      rfl ⟨0, "ubbb"⟩ rfl 5 (by norm_num)
    rw [show swapTokens cps2 ccoins creg "AAA" "BBB" 1 5 0 =
        .ok
          ⟨roundHalfAway ((1 : ℚ) * 10 ^ 1), "uaaa", (5 : ℚ) * 10 ^ 0,
            roundHalfAway ((5 : ℚ) * 10 ^ 0 * jsNumToDecimal (jsSub 1 (jsDiv 0 100))),
            [⟨"9", "ubbb"⟩]⟩ from rfl]
    simp only [Except.toOption, Option.map]
    exact congrArg some h
  · have h := (slippage_bounds cps2 ccoins creg "AAA" "BBB" 1 5).2
      ⟨roundHalfAway ((1 : ℚ) * 10 ^ 1), "uaaa", (5 : ℚ) * 10 ^ 0,
        roundHalfAway ((5 : ℚ) * 10 ^ 0 * jsNumToDecimal (jsSub 1 (jsDiv 100 100))),
        [⟨"9", "ubbb"⟩]⟩
      rfl
    rw [show swapTokens cps2 ccoins creg "AAA" "BBB" 1 5 100 =
        .ok
          ⟨roundHalfAway ((1 : ℚ) * 10 ^ 1), "uaaa", (5 : ℚ) * 10 ^ 0,
            roundHalfAway ((5 : ℚ) * 10 ^ 0 * jsNumToDecimal (jsSub 1 (jsDiv 100 100))),
            [⟨"9", "ubbb"⟩]⟩ from rfl]
    simp only [Except.toOption, Option.map]
    exact congrArg some h

end OsmosisSwap
